import Mathlib

/-!
Verification development for the SENERGY reporting service.

The definitions below are a shallow embedding of the report engine found in
`pkg/apis/senergy_devices/client.go` (report_engine package), the jsreport
driver in `internal/apis/jsreport/client.go`, and the data model in the
`lib`/`models` package.  Go maps are embedded as association lists (iteration
order of a Go map is unspecified; no verified property depends on it), Go
pointers to query structures are embedded as indices into an explicit heap so
that aliasing between a request object and the report that is persisted is
modelled faithfully, machine integers are embedded as `Int`/`Nat` (no verified
property exercises overflow), and the external collaborators (Mongo store,
time-series service, device inventory, renderer, JWT parsing, clock) are
embedded as an explicit environment of oracles.  A Go runtime panic (nil
pointer dereference) is embedded as the distinguished error `GoErr.nilDeref`.
-/

/-- Errors and abnormal terminations surfaced by the embedded operations.
`noDocuments` embeds `mongo.ErrNoDocuments`, `jwtInvalid` a failing
`jwt.Parse`, `nilDeref` a Go runtime panic caused by dereferencing a nil
pointer, and `msg` every other error value. -/
inductive GoErr where
  | noDocuments
  | jwtInvalid
  | nilDeref
  | msg (s : String)
deriving DecidableEq, Repr

/-- A dynamically typed Go value (`interface{}`) as it appears in report data:
JSON scalars, lists and objects.  `null` is the nil interface value. -/
inductive GoVal where
  | null
  | int (n : Int)
  | str (s : String)
  | boolv (b : Bool)
  | list (elems : List GoVal)
  | obj (entries : List (String × GoVal))
deriving Repr

/- ### Model of the Go `time` package (proleptic Gregorian calendar, UTC)

Instants are seconds since the Unix epoch.  `daysFromCivil`/`civilFromDays`
are the standard civil-calendar conversions that Go's `time` package
implements; `Int.tdiv` mirrors the truncating integer division used there
(all intermediate values are arranged to be safe for it, as in the original
algorithms). -/

def daysFromCivil (y m d : Int) : Int :=
  let y' : Int := if m ≤ 2 then y - 1 else y
  let era : Int := (if 0 ≤ y' then y' else y' - 399).tdiv 400
  let yoe : Int := y' - era * 400
  let doy : Int := (153 * (m + (if 2 < m then -3 else 9)) + 2).tdiv 5 + d - 1
  let doe : Int := yoe * 365 + yoe.tdiv 4 - yoe.tdiv 100 + doy
  era * 146097 + doe - 719468

def civilFromDays (z : Int) : Int × Int × Int :=
  let z' : Int := z + 719468
  let era : Int := (if 0 ≤ z' then z' else z' - 146096).tdiv 146097
  let doe : Int := z' - era * 146097
  let yoe : Int := (doe - doe.tdiv 1460 + doe.tdiv 36524 - doe.tdiv 146096).tdiv 365
  let y : Int := yoe + era * 400
  let doy : Int := doe - (365 * yoe + yoe.tdiv 4 - yoe.tdiv 100)
  let mp : Int := (5 * doy + 2).tdiv 153
  let d : Int := doy - (153 * mp + 2).tdiv 5 + 1
  let m : Int := mp + (if mp < 10 then 3 else -9)
  (if m ≤ 2 then y + 1 else y, m, d)

def goYear (t : Int) : Int := (civilFromDays (t.fdiv 86400)).1

def goMonth (t : Int) : Int := (civilFromDays (t.fdiv 86400)).2.1

def goDay (t : Int) : Int := (civilFromDays (t.fdiv 86400)).2.2

/-- `time.Date(y, m, d, hh, mi, ss, 0, time.UTC)`; like Go it normalises an
out-of-range day by adding the excess days. -/
def goTimeDate (y m d hh mi ss : Int) : Int :=
  daysFromCivil y m d * 86400 + hh * 3600 + mi * 60 + ss

def isLeapYear (y : Int) : Bool :=
  (y.emod 4 == 0 && y.emod 100 != 0) || y.emod 400 == 0

def daysInMonth (y m : Int) : Int :=
  if m == 2 then (if isLeapYear y then 29 else 28)
  else if m == 4 || m == 6 || m == 9 || m == 11 then 30
  else 31

def pad2 (n : Int) : String :=
  (if n < 10 then "0" else "") ++ Int.repr n

def pad4 (n : Int) : String :=
  let s := Int.repr n
  String.mk (List.replicate (4 - s.length) '0') ++ s

/-- `t.Format(time.RFC3339)` for an instant whose location is UTC. -/
def formatRFC3339 (t : Int) : String :=
  let days := t.fdiv 86400
  let sod := t - days * 86400
  let c := civilFromDays days
  pad4 c.1 ++ "-" ++ pad2 c.2.1 ++ "-" ++ pad2 c.2.2 ++ "T" ++
    pad2 (sod.tdiv 3600) ++ ":" ++ pad2 ((sod.tdiv 60).emod 60) ++ ":" ++
    pad2 (sod.emod 60) ++ "Z"

def digitVal (c : Char) : Option Int :=
  if c.isDigit then some ((c.toNat : Int) - 48) else none

def twoDigits (a b : Char) : Option Int := do
  let x ← digitVal a
  let y ← digitVal b
  pure (10 * x + y)

/-- `time.Parse(time.RFC3339, s)`: returns the instant (seconds since epoch)
together with the zone offset in minutes carried by the string (`0` for a
trailing `Z`).  Fractional seconds are not modelled; no verified property
uses them. -/
def parseRFC3339 (s : String) : Option (Int × Int) :=
  match s.data with
  | y1 :: y2 :: y3 :: y4 :: '-' :: m1 :: m2 :: '-' :: d1 :: d2 :: 'T' ::
      h1 :: h2 :: ':' :: n1 :: n2 :: ':' :: s1 :: s2 :: zone => do
    let ky ← twoDigits y1 y2
    let ly ← twoDigits y3 y4
    let y := 100 * ky + ly
    let mo ← twoDigits m1 m2
    let da ← twoDigits d1 d2
    let hh ← twoDigits h1 h2
    let mi ← twoDigits n1 n2
    let ss ← twoDigits s1 s2
    let offM ← match zone with
      | ['Z'] => some (0 : Int)
      | ['+', o1, o2, ':', o3, o4] => do
          let oh ← twoDigits o1 o2
          let om ← twoDigits o3 o4
          pure (60 * oh + om)
      | ['-', o1, o2, ':', o3, o4] => do
          let oh ← twoDigits o1 o2
          let om ← twoDigits o3 o4
          pure (-(60 * oh + om))
      | _ => none
    if 1 ≤ mo && mo ≤ 12 && 1 ≤ da && da ≤ daysInMonth y mo &&
        hh ≤ 23 && mi ≤ 59 && ss ≤ 59 then
      pure (goTimeDate y mo da hh mi ss - 60 * offM, offM)
    else none
  | _ => none

/- ### Model of `strconv` -/

def digitsToNat : List Char → Option Nat
  | [] => none
  | cs =>
    if cs.all Char.isDigit then
      some (cs.foldl (fun acc c => 10 * acc + (c.toNat - 48)) 0)
    else none

/-- `strconv.Atoi` (overflow is not modelled; no verified property exercises
integers beyond 64 bits). -/
def atoiModel (s : String) : Option Int :=
  match s.data with
  | '+' :: rest => (digitsToNat rest).map (fun n => (n : Int))
  | '-' :: rest => (digitsToNat rest).map (fun n => -(n : Int))
  | cs => (digitsToNat cs).map (fun n => (n : Int))

/-- `strconv.Itoa`. -/
def itoa (i : Int) : String := Int.repr i

/- ### Data model (`lib` / `models` package)

`ReportObject.Query` is a Go pointer (`*timescaleModels.QueriesRequestElement`);
it is embedded as an index into a heap of query cells so that the sharing of
the pointed-to structure between a request object and what is later persisted
is modelled.  Only the `Time.Start`/`Time.End` fields of the query are ever
read or written by the verified code; the remaining fields are opaque
pass-through and are not modelled. -/

structure QueryCell where
  timeStart : Option String
  timeEnd : Option String
deriving Repr, DecidableEq

abbrev Heap := List QueryCell

structure QueryOptions where
  rollingStartDate : Option String
  rollingEndDate : Option String
  startOffset : Option Int
  endOffset : Option Int
  resultObject : Option String
  resultKey : Option Int
deriving Repr, DecidableEq

structure DeviceQuery where
  last : Option String
deriving Repr, DecidableEq

mutual
/-- `models.ReportObject`: the embedded `DataType` contributes `name`,
`valueType` and `length`; `length` is never read by the verified operations
and is omitted. -/
inductive RObj where
  | mk (name : String) (valueType : String) (value : Option GoVal)
       (query : Option Nat) (queryOptions : Option QueryOptions)
       (deviceQuery : Option DeviceQuery) (fields : RMap) (children : RMap)

/-- `map[string]models.ReportObject` as an association list. -/
inductive RMap where
  | nil
  | cons (key : String) (obj : RObj) (tl : RMap)
end

def RObj.valueType : RObj → String
  | .mk _ vt _ _ _ _ _ _ => vt

def RObj.value : RObj → Option GoVal
  | .mk _ _ v _ _ _ _ _ => v

def RObj.query : RObj → Option Nat
  | .mk _ _ _ q _ _ _ _ => q

def RObj.queryOptions : RObj → Option QueryOptions
  | .mk _ _ _ _ qo _ _ _ => qo

def RObj.deviceQuery : RObj → Option DeviceQuery
  | .mk _ _ _ _ _ dq _ _ => dq

def RObj.fields : RObj → RMap
  | .mk _ _ _ _ _ _ f _ => f

def RObj.children : RObj → RMap
  | .mk _ _ _ _ _ _ _ c => c

def RMap.toList : RMap → List (String × RObj)
  | .nil => []
  | .cons k v tl => (k, v) :: tl.toList

def RMap.keys : RMap → List String
  | .nil => []
  | .cons k _ tl => k :: tl.keys

mutual
/-- A report object as serialized into the Mongo store: pointer targets are
resolved to their values at write time. -/
inductive SObj where
  | mk (name : String) (valueType : String) (value : Option GoVal)
       (query : Option QueryCell) (queryOptions : Option QueryOptions)
       (deviceQuery : Option DeviceQuery) (fields : SMap) (children : SMap)

inductive SMap where
  | nil
  | cons (key : String) (obj : SObj) (tl : SMap)
end

def SObj.query : SObj → Option QueryCell
  | .mk _ _ _ q _ _ _ _ => q

mutual
def serializeObj (heap : Heap) : RObj → SObj
  | .mk n vt v q qo dq f c =>
    .mk n vt v (q.bind (fun r => heap[r]?)) qo dq (serializeMap heap f)
      (serializeMap heap c)

def serializeMap (heap : Heap) : RMap → SMap
  | .nil => .nil
  | .cons k v tl => .cons k (serializeObj heap v) (serializeMap heap tl)
end

structure ReportFile where
  id : String
  rtype : String
  link : String
  createdAt : Nat
deriving Repr, DecidableEq

/-- `models.Report` as held in memory (query pointers are heap refs inside
`data`).  `reportFiles` is `none` when the Go slice is nil.  The email fields
are pure payload never read by the verified operations and are omitted. -/
structure Report where
  id : String
  name : String
  templateName : String
  data : RMap
  templateId : String
  userId : String
  reportFiles : Option (List ReportFile)
  cron : String
  scheduledFor : Option Nat
  createdAt : Nat
  updatedAt : Nat

/-- A report as persisted in the `reports` collection (pointer targets
inlined by serialization). -/
structure SReport where
  id : String
  name : String
  templateName : String
  data : SMap
  templateId : String
  userId : String
  reportFiles : Option (List ReportFile)
  cron : String
  scheduledFor : Option Nat
  createdAt : Nat
  updatedAt : Nat

def serializeReport (heap : Heap) (r : Report) : SReport :=
  { id := r.id, name := r.name, templateName := r.templateName,
    data := serializeMap heap r.data, templateId := r.templateId,
    userId := r.userId, reportFiles := r.reportFiles, cron := r.cron,
    scheduledFor := r.scheduledFor, createdAt := r.createdAt,
    updatedAt := r.updatedAt }

def SReport.zero : SReport :=
  { id := "", name := "", templateName := "", data := .nil, templateId := "",
    userId := "", reportFiles := none, cron := "", scheduledFor := none,
    createdAt := 0, updatedAt := 0 }

def Report.zero : Report :=
  { id := "", name := "", templateName := "", data := .nil, templateId := "",
    userId := "", reportFiles := none, cron := "", scheduledFor := none,
    createdAt := 0, updatedAt := 0 }

/-- The renderer's artifact store, keyed by report-file id.  Modelled from the
spec: the renderer owns artifact bytes keyed by `ReportFile.id`; the jsreport
driver's delete swallows "not found" (idempotent delete), so a delete is pure
removal. -/
abbrev Renderer := List String

/-- The external collaborators, fixed for a run: JWT parsing of the auth
token, uuid generation, the clock, cron computation, a possible transient
fault of the store's `FindOne`, the time-series query service, the device
inventory and the renderer's report creation. -/
structure Env where
  tokenUser : Except GoErr String
  freshId : String
  now : Nat
  nowYear : Int
  nowMonth : Int
  cronNext : String → Except GoErr Nat
  findFault : Option GoErr
  dbQuery : QueryCell → QueryOptions → Except GoErr (List GoVal)
  deviceQuery : String → Except GoErr (List GoVal)
  createReport : String → String → List (String × GoVal) →
    Except GoErr (String × String × String)

/- ### `updateStartAndEndDate` (client.go:304) -/

/-- The `RollingStartDate` block of `updateStartAndEndDate`.  Returns the
possibly updated heap, a panic, and whether control reaches the
`RollingEndDate` block (a failing `time.Parse` exits the whole function with
the *nil* named error — the local `e` is never assigned to `err`). -/
def rollStartBlock (env : Env) (heap : Heap) (qref : Nat) (o : QueryOptions) :
    Heap × Option GoErr × Bool :=
  match heap[qref]? with
  | none => (heap, none, true)
  | some cell =>
    match o.rollingStartDate, cell.timeStart with
    | some roll, some s =>
      match parseRFC3339 s with
      | none => (heap, none, false)
      | some (t, zoff) =>
        match o.startOffset with
        | none => (heap, some .nilDeref, false)
        | some off =>
          let base := t - 60 * off
          let nd :=
            match roll with
            | "month" =>
              goTimeDate env.nowYear env.nowMonth (goDay (base + 60 * zoff)) 0 0 0
            | "year" =>
              goTimeDate env.nowYear (goMonth (base + 60 * zoff))
                (goDay (base + 60 * zoff)) 0 0 0
            | _ => base
          let nd2 := nd + 60 * off
          (heap.set qref { cell with timeStart := some (formatRFC3339 nd2) },
            none, true)
    | _, _ => (heap, none, true)

/-- The `RollingEndDate` block, symmetric to `rollStartBlock`. -/
def rollEndBlock (env : Env) (heap : Heap) (qref : Nat) (o : QueryOptions) :
    Heap × Option GoErr × Bool :=
  match heap[qref]? with
  | none => (heap, none, true)
  | some cell =>
    match o.rollingEndDate, cell.timeEnd with
    | some roll, some s =>
      match parseRFC3339 s with
      | none => (heap, none, false)
      | some (t, zoff) =>
        match o.endOffset with
        | none => (heap, some .nilDeref, false)
        | some off =>
          let base := t - 60 * off
          let nd :=
            match roll with
            | "month" =>
              goTimeDate env.nowYear env.nowMonth (goDay (base + 60 * zoff)) 0 0 0
            | "year" =>
              goTimeDate env.nowYear (goMonth (base + 60 * zoff))
                (goDay (base + 60 * zoff)) 0 0 0
            | _ => base
          let nd2 := nd + 60 * off
          (heap.set qref { cell with timeEnd := some (formatRFC3339 nd2) },
            none, true)
    | _, _ => (heap, none, true)

/-- `updateStartAndEndDate`: the only possible abnormal outcome is a nil
pointer dereference of a missing offset; every error-like exit in the Go code
returns the nil named `err`. -/
def updateStartAndEndDate (env : Env) (heap : Heap) (qref : Nat)
    (qopts : Option QueryOptions) : Heap × Option GoErr :=
  match qopts with
  | none => (heap, none)
  | some o =>
    match rollStartBlock env heap qref o with
    | (h1, some e, _) => (h1, some e)
    | (h1, none, false) => (h1, none)
    | (h1, none, true) =>
      let r := rollEndBlock env h1 qref o
      (r.1, r.2.1)

/- ### `filterQueryValues` (client.go:293) -/

def filterQueryValues : List GoVal → List GoVal
  | [] => []
  | v :: rest =>
    match v with
    | .null => GoVal.int 0 :: filterQueryValues rest
    | w => w :: filterQueryValues rest

/- ### Helpers for the array-children branch of `setReportFileData` -/

/-- Go map indexing `arrayData[k]` (a missing key yields the nil interface,
i.e. `GoVal.null`, at the use site). -/
def mapLookup (m : List (String × GoVal)) (k : String) : Option GoVal :=
  match m with
  | [] => none
  | (k', v) :: tl => if k' == k then some v else mapLookup tl k

/-- The `strconv.Atoi` collection loop over the keys of the recursion result
(client.go:253-261); the first failing key aborts. -/
def collectKeys : List (String × GoVal) → Except GoErr (List Int)
  | [] => .ok []
  | (k, _) :: tl =>
    match atoiModel k with
    | none => .error (.msg ("strconv.Atoi: " ++ k))
    | some i =>
      match collectKeys tl with
      | .error e => .error e
      | .ok ks => .ok (i :: ks)

def insertInt (x : Int) : List Int → List Int
  | [] => [x]
  | y :: tl => if x ≤ y then x :: y :: tl else y :: insertInt x tl

/-- `sort.Ints` (ascending); any correct sort of a list of integers yields
the same result, so insertion sort is an exact model. -/
def sortInts : List Int → List Int
  | [] => []
  | x :: tl => insertInt x (sortInts tl)

/- ### `setReportFileData` (client.go:203) -/

/-- Outcome of one iteration of the `setReportFileData` loop: `stop` embeds
the early `return` paths (and panics), `cont` proceeds to the next entry,
carrying the current value of the named `err` variable (which the device-query
branch sets without returning). -/
inductive StepRes where
  | stop (heap : Heap) (entry : Option (String × GoVal)) (e : GoErr)
  | cont (heap : Heap) (entry : Option (String × GoVal)) (carried : Option GoErr)

mutual
/-- The body of the `for key, value := range data` loop of
`setReportFileData` for a single entry.  The Prometheus counter update has no
observable effect in the model and is omitted.  The recursive Go calls
re-parse the same auth token with the same outcome as the caller, so the
embedding enters the loop (`setEntriesGo`) directly with a fresh nil `err`,
exactly as each recursive Go frame does once its parse has succeeded. -/
def processNode (env : Env) (heap : Heap) (carried : Option GoErr)
    (k : String) (v : RObj) : StepRes :=
  match v with
  | .mk _ vt value query qopts dq flds ch =>
    if vt == "string" || vt == "int" || vt == "float" || vt == "float64" then
      match value with
      | some x => .cont heap (some (k, x)) carried
      | none =>
        match query with
        | some qref =>
          match updateStartAndEndDate env heap qref qopts with
          | (h1, some e) => .stop h1 none e
          | (h1, none) =>
            match qopts with
            | none => .stop h1 none .nilDeref
            | some o =>
              match h1[qref]? with
              | none => .stop h1 none .nilDeref
              | some cell =>
                match env.dbQuery cell o with
                | .error e => .stop h1 none e
                | .ok responseData =>
                  match filterQueryValues responseData with
                  | [] => .cont h1 none none
                  | x :: _ => .cont h1 (some (k, x)) none
        | none => .cont heap none carried
    else if vt == "object" then
      match setEntriesGo env heap none flds with
      | (h1, sub, some e) => .stop h1 (some (k, .obj sub)) e
      | (h1, sub, none) =>
        if sub.isEmpty then .cont h1 none none
        else .cont h1 (some (k, .obj sub)) none
    else if vt == "array" then
      match value with
      | some x => .cont heap (some (k, x)) carried
      | none =>
        match ch with
        | .cons _ _ _ =>
          match setEntriesGo env heap none ch with
          | (h1, _, some e) => .stop h1 none e
          | (h1, arrayData, none) =>
            match collectKeys arrayData with
            | .error e => .stop h1 none e
            | .ok ks =>
              let dataSlice := (sortInts ks).map
                (fun i => (mapLookup arrayData (itoa i)).getD GoVal.null)
              if dataSlice.isEmpty then .cont h1 none none
              else .cont h1 (some (k, .list dataSlice)) none
        | .nil =>
          match query with
          | some qref =>
            match updateStartAndEndDate env heap qref qopts with
            | (h1, some e) => .stop h1 none e
            | (h1, none) =>
              match qopts with
              | none => .stop h1 none .nilDeref
              | some o =>
                match h1[qref]? with
                | none => .stop h1 none .nilDeref
                | some cell =>
                  match env.dbQuery cell o with
                  | .error e => .stop h1 none e
                  | .ok responseData =>
                    .cont h1 (some (k, .list (filterQueryValues responseData)))
                      none
          | none =>
            match dq with
            | some d =>
              match d.last with
              | none => .stop heap none .nilDeref
              | some lastv =>
                match env.deviceQuery lastv with
                | .error e => .cont heap (some (k, .list [])) (some e)
                | .ok rd => .cont heap (some (k, .list rd)) none
            | none => .cont heap none carried
    else .cont heap none carried

/-- The `setReportFileData` loop over the entries of a report-object map,
threading the heap and the named `err` variable. -/
def setEntriesGo (env : Env) (heap : Heap) (carried : Option GoErr) :
    RMap → Heap × List (String × GoVal) × Option GoErr
  | .nil => (heap, [], carried)
  | .cons k v tl =>
    match processNode env heap carried k v with
    | .stop h ent e => (h, ent.toList, some e)
    | .cont h ent c =>
      match setEntriesGo env h c tl with
      | (h2, l, e2) => (h2, ent.toList ++ l, e2)
end

/-- `setReportFileData`: parse the auth token, then run the loop.  The result
map accompanying a non-nil error is dead in every caller (each checks the
error first). -/
def setReportFileData (env : Env) (heap : Heap) (m : RMap) :
    Heap × List (String × GoVal) × Option GoErr :=
  match env.tokenUser with
  | .error e => (heap, [], some e)
  | .ok _ => setEntriesGo env heap none m

/- ### Report model store (Mongo) operations -/

/-- `calculateNextSchedule` (client.go:684): empty cron means no schedule;
otherwise the cron parser and "next fire strictly after now" computation are
delegated to the environment. -/
def calculateNextSchedule (env : Env) (cron : String) :
    Except GoErr (Option Nat) :=
  if cron == "" then .ok none
  else
    match env.cronNext cron with
    | .error e => .error e
    | .ok t => .ok (some t)

/-- `GetReportModel` (client.go:499): `FindOne` on `{_id: id, userid: user}`.
Returns the zero report together with the error, as the Go function does.
`env.findFault` injects a transient store fault (network/decode error). -/
def GetReportModel (env : Env) (store : List SReport) (id : String) :
    SReport × Option GoErr :=
  match env.tokenUser with
  | .error e => (SReport.zero, some e)
  | .ok u =>
    match env.findFault with
    | some e => (SReport.zero, some e)
    | none =>
      match store.find? (fun r => r.id == id && r.userId == u) with
      | none => (SReport.zero, some .noDocuments)
      | some r => (r, none)

/-- `SaveReportModel` (client.go:408): fresh uuid, owner from token, schedule
from cron, `createdAt := now`, insert.  Returns the in-memory report (sharing
its query pointers with the argument) and the updated store. -/
def SaveReportModel (env : Env) (heap : Heap) (store : List SReport)
    (r : Report) : Report × List SReport × Option GoErr :=
  match env.tokenUser with
  | .error e => (Report.zero, store, some e)
  | .ok u =>
    let r1 := { r with id := env.freshId, userId := u }
    match calculateNextSchedule env r1.cron with
    | .error e => (Report.zero, store, some e)
    | .ok ts =>
      let r2 := { r1 with scheduledFor := ts, createdAt := env.now }
      (r2, store ++ [serializeReport heap r2], none)

/-- `ReplaceOne` with upsert: replace the first match of the filter, append
when nothing matches. -/
def replaceFirst (p : SReport → Bool) (x : SReport) :
    List SReport → List SReport
  | [] => [x]
  | r :: tl => if p r then x :: tl else r :: replaceFirst p x tl

/-- The body of `UpdateReportModel` (client.go:434) on an
already-serialized report: owner from token, recomputed schedule,
`updatedAt := now`, the nil-`reportFiles` partial-update reload, then the
upsert on `{_id, userid}`. -/
def updateStored (env : Env) (store : List SReport) (sr : SReport) :
    List SReport × Option GoErr :=
  match env.tokenUser with
  | .error e => (store, some e)
  | .ok u =>
    let sr1 := { sr with userId := u }
    match calculateNextSchedule env sr1.cron with
    | .error e => (store, some e)
    | .ok ts =>
      let sr2 := { sr1 with scheduledFor := ts, updatedAt := env.now }
      match sr2.reportFiles with
      | none =>
        match GetReportModel env store sr2.id with
        | (_, some e) => (store, some e)
        | (oldReport, none) =>
          let sr3 := { sr2 with
            reportFiles := oldReport.reportFiles,
            createdAt := oldReport.createdAt }
          (replaceFirst (fun r => r.id == sr3.id && r.userId == u) sr3 store,
            none)
      | some _ =>
        (replaceFirst (fun r => r.id == sr2.id && r.userId == u) sr2 store,
          none)

/-- `UpdateReportModel` on an in-memory report: the report's query pointers
are resolved against the heap when the document is serialized at the
`ReplaceOne` boundary. -/
def UpdateReportModel (env : Env) (heap : Heap) (store : List SReport)
    (r : Report) : List SReport × Option GoErr :=
  updateStored env store (serializeReport heap r)

/-- Appending to a possibly-nil Go slice always yields a non-nil slice. -/
def appendFile (files : Option (List ReportFile)) (f : ReportFile) :
    Option (List ReportFile) :=
  some (files.getD [] ++ [f])

/- ### `CreateReportFile` (client.go:160) -/

/-- The tail of `CreateReportFile` after the lookup/implicit-save prologue:
materialize, render, append the new file, update.  `files0`/`created0` are
`reportModel.ReportFiles`/`reportModel.CreatedAt`. -/
def createReportFileRest (env : Env) (heap : Heap) (store : List SReport)
    (ren : Renderer) (req : Report) (files0 : Option (List ReportFile))
    (created0 : Nat) :
    Heap × List SReport × Renderer × Except GoErr (Report × String) :=
  let req2 := { req with reportFiles := files0 }
  match setReportFileData env heap req2.data with
  | (h1, _, some e) => (h1, store, ren, .error e)
  | (h1, reportData, none) =>
    match env.createReport req2.name req2.templateName reportData with
    | .error e => (h1, store, ren, .error e)
    | .ok (fileId, fileType, fileLink) =>
      let ren1 := ren ++ [fileId]
      let req3 := { req2 with
        reportFiles := appendFile req2.reportFiles
          ⟨fileId, fileType, fileLink, env.now⟩,
        createdAt := created0 }
      match UpdateReportModel env h1 store req3 with
      | (store1, some e) => (h1, store1, ren1, .error e)
      | (store1, none) => (h1, store1, ren1, .ok (req3, fileId))

/-- `CreateReportFile`: look up the stored report; the implicit save is
triggered by `errors.Is(err, mongo.ErrNoDocuments) || reportModel.Id == ""`
and its error is discarded (`reportModel, _ = r.SaveReportModel(...)`); the
`else if err != nil` propagation branch is kept as written. -/
def CreateReportFile (env : Env) (heap : Heap) (store : List SReport)
    (ren : Renderer) (reportRequest : Report) :
    Heap × List SReport × Renderer × Except GoErr (Report × String) :=
  match GetReportModel env store reportRequest.id with
  | (reportModel, gerr) =>
    if gerr == some .noDocuments || reportModel.id == "" then
      match SaveReportModel env heap store reportRequest with
      | (saved, store1, _) =>
        createReportFileRest env heap store1 ren saved saved.reportFiles
          saved.createdAt
    else
      match gerr with
      | some e => (heap, store, ren, .error e)
      | none =>
        createReportFileRest env heap store ren reportRequest
          reportModel.reportFiles reportModel.createdAt

/- ### `DeleteReport` (client.go:467) -/

/-- The renderer-side artifact delete
(`internal/apis/jsreport/client.go:190`): a missing artifact is swallowed
("Report %s not found"), so the delete is pure removal; upstream transport
faults are outside the model. -/
def driverDeleteFile (ren : Renderer) (fileId : String) : Renderer :=
  ren.filter (fun a => a != fileId)

/-- `DeleteReport`: the admin flag widens only the `FindOneAndDelete` filter;
the preceding `GetReportModel` is always owner-scoped.  `FindOneAndDelete`
yields `ErrNoDocuments` when the filter matches nothing. -/
def DeleteReport (env : Env) (store : List SReport) (ren : Renderer)
    (id : String) (admin : Bool) :
    List SReport × Renderer × Option GoErr :=
  match env.tokenUser with
  | .error e => (store, ren, some e)
  | .ok u =>
    let req : SReport → Bool :=
      if admin then fun r => r.id == id
      else fun r => r.id == id && r.userId == u
    match GetReportModel env store id with
    | (_, some e) => (store, ren, some e)
    | (report, none) =>
      let ren1 := (report.reportFiles.getD []).foldl
        (fun acc f => driverDeleteFile acc f.id) ren
      match store.findIdx? req with
      | none => (store, ren1, some .noDocuments)
      | some i => (store.eraseIdx i, ren1, none)

/- ### `DeleteCreatedReportFile` (client.go:375) -/

/-- The removal loop
`for index, element := range report.ReportFiles { if element.Id == fileId
{ report.ReportFiles = append(report.ReportFiles[:index],
report.ReportFiles[index+1:]...) } }` as a zipper: a removal shifts the
following element into the removed slot, where the advancing loop index skips
it.  This is exactly the Go behaviour whenever at most one entry carries the
given id (with duplicate ids the Go loop additionally re-reads a stale tail
slot of the shared backing array and can slice out of range; every id is a
renderer-generated uuid, and the verified property assumes at most one
occurrence). -/
def removeLoop (fileId : String) (processed : List ReportFile) :
    List ReportFile → List ReportFile
  | [] => processed
  | el :: rest =>
    if el.id == fileId then
      match rest with
      | [] => processed
      | nxt :: rest' => removeLoop fileId (processed ++ [nxt]) rest'
    else removeLoop fileId (processed ++ [el]) rest

def removePass (fileId : String) (files : List ReportFile) :
    List ReportFile :=
  removeLoop fileId [] files

/-- `DeleteCreatedReportFile`: owner-scoped lookup, renderer delete
(idempotent), removal pass over `reportFiles`, update. -/
def DeleteCreatedReportFile (env : Env) (store : List SReport)
    (ren : Renderer) (reportId fileId : String) :
    List SReport × Renderer × Option GoErr :=
  match GetReportModel env store reportId with
  | (_, some e) => (store, ren, some e)
  | (report, none) =>
    let ren1 := driverDeleteFile ren fileId
    let report1 := { report with
      reportFiles := report.reportFiles.map (removePass fileId) }
    match updateStored env store report1 with
    | (store1, e) => (store1, ren1, e)

/- ### Template structure inference
(`getJsonKeysAndTypes`, internal/apis/jsreport/client.go:89) -/

mutual
/-- `report_engine.DataType` (schema node). -/
inductive DataType where
  | mk (name : String) (valueType : String) (length : Nat)
       (fields : DTMap) (children : DTMap)

/-- `map[string]report_engine.DataType` as an association list. -/
inductive DTMap where
  | nil
  | cons (key : String) (d : DataType) (tl : DTMap)
end

def DataType.name : DataType → String
  | .mk n _ _ _ _ => n

def DataType.valueTy : DataType → String
  | .mk _ vt _ _ _ => vt

def DataType.length : DataType → Nat
  | .mk _ _ l _ _ => l

def DataType.fields : DataType → DTMap
  | .mk _ _ _ f _ => f

def DataType.children : DataType → DTMap
  | .mk _ _ _ _ c => c

def DTMap.toList : DTMap → List (String × DataType)
  | .nil => []
  | .cons k d tl => (k, d) :: tl.toList

mutual
/-- A decoded JSON value (`encoding/json` into `interface{}`): JSON numbers
decode as `float64` (the payload is irrelevant to inference and kept as an
integer), objects as `map[string]interface{}`, arrays as `[]interface{}`. -/
inductive JVal where
  | null
  | boolv (b : Bool)
  | num (n : Int)
  | str (s : String)
  | arr (elems : JList)
  | obj (entries : JObj)

inductive JList where
  | nil
  | cons (hd : JVal) (tl : JList)

inductive JObj where
  | nil
  | cons (k : String) (v : JVal) (tl : JObj)
end

def JList.length : JList → Nat
  | .nil => 0
  | .cons _ tl => 1 + tl.length

def JList.toList : JList → List JVal
  | .nil => []
  | .cons e tl => e :: tl.toList

def JObj.toList : JObj → List (String × JVal)
  | .nil => []
  | .cons k v tl => (k, v) :: tl.toList

mutual
/-- The per-entry case analysis of `getJsonKeysAndTypes`: object values
recurse into `fields`; array values build a children map keyed by
`strconv.Itoa(i)` for `i = 0..len-1` and resolve it recursively (the
intermediate `childrenMap` and recursive call are inlined into
`inferIndexed`); anything else records `fmt.Sprintf("%v",
reflect.TypeOf(value))`, which is `"string"`, `"float64"`, `"bool"`, or
`"<nil>"` for a nil interface.  The initial placeholder `result[key] =
DataType{}` is always overwritten and has no effect. -/
def inferValue (key : String) : JVal → DataType
  | .obj entries => .mk key "object" 0 (inferFields entries) .nil
  | .arr elems => .mk key "array" elems.length .nil (inferIndexed 0 elems)
  | .str _ => .mk key "string" 0 .nil .nil
  | .num _ => .mk key "float64" 0 .nil .nil
  | .boolv _ => .mk key "bool" 0 .nil .nil
  | .null => .mk key "<nil>" 0 .nil .nil

def inferFields : JObj → DTMap
  | .nil => .nil
  | .cons k v tl => .cons k (inferValue k v) (inferFields tl)

def inferIndexed (i : Nat) : JList → DTMap
  | .nil => .nil
  | .cons e tl =>
    .cons (Nat.repr i) (inferValue (Nat.repr i) e) (inferIndexed (i + 1) tl)
end

/-- `getJsonKeysAndTypes` over a decoded JSON object. -/
def getJsonKeysAndTypes (entries : JObj) : DTMap :=
  inferFields entries

mutual
/-- Checks that a node's `name` equals the key under which it sits, at every
depth. -/
def nodeNamesOk (k : String) : DataType → Bool
  | .mk n _ _ f c => n == k && dtmapNamesOk f && dtmapNamesOk c

def dtmapNamesOk : DTMap → Bool
  | .nil => true
  | .cons k d tl => nodeNamesOk k d && dtmapNamesOk tl
end

/-- Number of entries of a report-file list carrying a given id. -/
def countMatches (fileId : String) (l : List ReportFile) : Nat :=
  (l.filter (fun f => f.id == fileId)).length

/-- A child key in the canonical form produced for arrays: it parses under
`strconv.Atoi` to a non-negative integer whose `strconv.Itoa` image is the
key itself. -/
def canonKey (k : String) : Bool :=
  match atoiModel k with
  | some i => 0 ≤ i && itoa i == k
  | none => false

/- ### Concrete scenario used by the closed theorems -/

def envBase : Env :=
  { tokenUser := .ok "alice", freshId := "fresh-1", now := 5, nowYear := 2024,
    nowMonth := 7, cronNext := fun _ => .ok 9, findFault := none,
    dbQuery := fun _ _ => .ok [], deviceQuery := fun _ => .ok [],
    createReport := fun _ _ _ => .ok ("file-1", "application/pdf", "link-1") }

/-- The `query.time.start` of the first data entry of the first stored
report. -/
def firstStoredStart (store : List SReport) : Option String :=
  match store with
  | [] => none
  | s :: _ =>
    match s.data with
    | .cons _ o _ => o.query.bind (fun c => c.timeStart)
    | .nil => none

def c1Node : RObj :=
  .mk "x" "string" none (some 0)
    (some ⟨some "month", none, some 0, none, none, none⟩) none .nil .nil

def c1Heap : Heap := [⟨some "2024-01-10T00:00:00Z", none⟩]

def c1Req : Report :=
  { Report.zero with
    id := "r1", name := "N", templateName := "T",
    data := .cons "x" c1Node .nil }

def c1Stored : SReport :=
  { SReport.zero with
    id := "r1", userId := "alice", name := "N", templateName := "T",
    data := serializeMap c1Heap (.cons "x" c1Node .nil), createdAt := 3 }

def c1Run : Heap × List SReport × Renderer × Except GoErr (Report × String) :=
  CreateReportFile envBase c1Heap [c1Stored] [] c1Req

/-- C1: the claim states that `CreateReportFile` leaves the stored report's
`query.time.start` unchanged when a rolling-date rewrite is applied.  It does
not: the request object and the report that is persisted share the pointed-to
query structure, so the rewrite performed by `updateStartAndEndDate` during
materialization is serialized into the store by the trailing
`UpdateReportModel`.  Here the stored start moves from `2024-01-10T00:00:00Z`
to `2024-07-10T00:00:00Z` while the call succeeds. -/
theorem C1_rolling_rewrite_persists_to_store :
    firstStoredStart [c1Stored] = some "2024-01-10T00:00:00Z" ∧
    firstStoredStart c1Run.2.1 = some "2024-07-10T00:00:00Z" ∧
    (∃ v, c1Run.2.2.2 = Except.ok v) :=
  ⟨rfl, rfl, ⟨_, rfl⟩⟩

def c2Stored : SReport :=
  { SReport.zero with
    id := "r1", userId := "alice",
    reportFiles := some [⟨"f1", "application/pdf", "l1", 1⟩], createdAt := 3 }

/-- C2: the claim states that `DeleteReport(id, token, admin := true)`
deletes the report regardless of the owner.  It does not: the owner-scoped
`GetReportModel` lookup fails with `ErrNoDocuments` for a non-owner before
the admin-widened delete filter is ever used, so nothing is deleted at the
renderer or in the store. -/
theorem C2_admin_delete_blocked_for_non_owner :
    DeleteReport { envBase with tokenUser := .ok "bob" } [c2Stored] ["f1"]
        "r1" true
      = ([c2Stored], ["f1"], some GoErr.noDocuments) :=
  rfl

def c3Env : Env := { envBase with findFault := some (.msg "network") }

def c3Req : Report :=
  { Report.zero with
    id := "r1", name := "N", templateName := "T" }

def c3Run : Heap × List SReport × Renderer × Except GoErr (Report × String) :=
  CreateReportFile c3Env [] [] [] c3Req

/-- C3: the claim states that only the distinguished `ErrNoDocuments`
triggers the implicit save and every other lookup error aborts
`CreateReportFile`.  In fact `GetReportModel` returns the zero report
together with any error, so the guard `errors.Is(err, mongo.ErrNoDocuments)
|| reportModel.Id == ""` is satisfied for every lookup error: a generic
store fault (`findFault`) still performs the implicit save (the store gains
the freshly saved report id) and the call succeeds instead of propagating
the error. -/
theorem C3_implicit_save_on_generic_lookup_error :
    c3Run.2.1.map (fun s => s.id) = ["fresh-1"] ∧
    (∃ v, c3Run.2.2.2 = Except.ok v) :=
  ⟨rfl, ⟨_, rfl⟩⟩

/-- C4: a scalar or array node whose `query` is present but whose
`queryOptions` is nil makes `setReportFileData` dereference the nil
`*value.QueryOptions` at the `DBClient.Query` call: the materialization
panics instead of performing the query. -/
theorem C4_missing_query_options_panics :
    (setReportFileData envBase [⟨some "2024-01-10T00:00:00Z", none⟩]
        (.cons "x" (.mk "x" "string" none (some 0) none none .nil .nil)
          .nil)).2.2 = some GoErr.nilDeref ∧
    (setReportFileData envBase [⟨some "2024-01-10T00:00:00Z", none⟩]
        (.cons "x" (.mk "x" "array" none (some 0) none none .nil .nil)
          .nil)).2.2 = some GoErr.nilDeref :=
  ⟨rfl, rfl⟩

/-- C5, counterexample to the claim's worked instance: with
`now = 2024-07`, `start = 2024-01-10T00:00:00Z`, `rollingStartDate =
"month"`, `startOffset = 60`, subtracting the offset lands on
`2024-01-09T23:00:00Z`, whose day is 9, so the rewritten start is
`2024-07-09T01:00:00Z` — not `2024-07-10T01:00:00Z` as claimed. -/
theorem C5_spec_example_refuted :
    updateStartAndEndDate envBase [⟨some "2024-01-10T00:00:00Z", none⟩] 0
        (some ⟨some "month", none, some 60, none, none, none⟩)
      = ([⟨some "2024-07-09T01:00:00Z", none⟩], none) ∧
    "2024-07-09T01:00:00Z" ≠ "2024-07-10T01:00:00Z" :=
  ⟨rfl, by decide⟩

theorem rollEndBlock_none (env : Env) (heap : Heap) (qref : Nat)
    (o : QueryOptions) (h : o.rollingEndDate = none) :
    rollEndBlock env heap qref o = (heap, none, true) := by
  unfold rollEndBlock
  cases hq : heap[qref]? with
  | none => rfl
  | some cell => simp [h]

theorem rollStartBlock_none (env : Env) (heap : Heap) (qref : Nat)
    (o : QueryOptions) (h : o.rollingStartDate = none) :
    rollStartBlock env heap qref o = (heap, none, true) := by
  unfold rollStartBlock
  cases hq : heap[qref]? with
  | none => rfl
  | some cell => simp [h]

/-- C5 (amended): for an RFC3339 start that parses to the instant `t` with
zone offset `zoff` minutes, a rolling rewrite with offset `off` minutes
replaces `query.time.start` by `Date(now.year, now.month, day, 00:00 UTC) +
off` for `"month"` and by `Date(now.year, month, day, 00:00 UTC) + off` for
`"year"`, formatted as UTC RFC3339, where `day` (and `month`) are read off
the offset-subtracted instant `t - off` in the timestamp's own zone; the
symmetric rules hold for `rollingEndDate`/`endOffset`/`query.time.end`.  In
the claim's worked instance the subtraction moves the day to 9, so the
rewritten start is `2024-07-09T01:00:00Z` (see `C5_spec_example_refuted`). -/
theorem C5_rolling_rewrite (env : Env) :
    (∀ (heap : Heap) (qref : Nat) (cell : QueryCell) (s : String)
        (t zoff off : Int) (ro : Option String) (rk : Option Int),
      heap[qref]? = some cell → cell.timeStart = some s →
      parseRFC3339 s = some (t, zoff) →
      updateStartAndEndDate env heap qref
          (some ⟨some "month", none, some off, none, ro, rk⟩)
        = (heap.set qref { cell with timeStart := some (formatRFC3339
            (goTimeDate env.nowYear env.nowMonth
              (goDay (t - 60 * off + 60 * zoff)) 0 0 0 + 60 * off)) },
           none)) ∧
    (∀ (heap : Heap) (qref : Nat) (cell : QueryCell) (s : String)
        (t zoff off : Int) (ro : Option String) (rk : Option Int),
      heap[qref]? = some cell → cell.timeStart = some s →
      parseRFC3339 s = some (t, zoff) →
      updateStartAndEndDate env heap qref
          (some ⟨some "year", none, some off, none, ro, rk⟩)
        = (heap.set qref { cell with timeStart := some (formatRFC3339
            (goTimeDate env.nowYear (goMonth (t - 60 * off + 60 * zoff))
              (goDay (t - 60 * off + 60 * zoff)) 0 0 0 + 60 * off)) },
           none)) ∧
    (∀ (heap : Heap) (qref : Nat) (cell : QueryCell) (s : String)
        (t zoff off : Int) (ro : Option String) (rk : Option Int),
      heap[qref]? = some cell → cell.timeEnd = some s →
      parseRFC3339 s = some (t, zoff) →
      updateStartAndEndDate env heap qref
          (some ⟨none, some "month", none, some off, ro, rk⟩)
        = (heap.set qref { cell with timeEnd := some (formatRFC3339
            (goTimeDate env.nowYear env.nowMonth
              (goDay (t - 60 * off + 60 * zoff)) 0 0 0 + 60 * off)) },
           none)) ∧
    (∀ (heap : Heap) (qref : Nat) (cell : QueryCell) (s : String)
        (t zoff off : Int) (ro : Option String) (rk : Option Int),
      heap[qref]? = some cell → cell.timeEnd = some s →
      parseRFC3339 s = some (t, zoff) →
      updateStartAndEndDate env heap qref
          (some ⟨none, some "year", none, some off, ro, rk⟩)
        = (heap.set qref { cell with timeEnd := some (formatRFC3339
            (goTimeDate env.nowYear (goMonth (t - 60 * off + 60 * zoff))
              (goDay (t - 60 * off + 60 * zoff)) 0 0 0 + 60 * off)) },
           none)) := by
  refine ⟨?_, ?_, ?_, ?_⟩
  · intro heap qref cell s t zoff off ro rk hcell hstart hparse
    simp only [updateStartAndEndDate, rollStartBlock, hcell, hstart, hparse]
    rw [rollEndBlock_none env _ qref _ rfl]
  · intro heap qref cell s t zoff off ro rk hcell hstart hparse
    simp only [updateStartAndEndDate, rollStartBlock, hcell, hstart, hparse]
    rw [rollEndBlock_none env _ qref _ rfl]
  · intro heap qref cell s t zoff off ro rk hcell hend hparse
    rw [show updateStartAndEndDate env heap qref
        (some ⟨none, some "month", none, some off, ro, rk⟩)
      = (let r := rollEndBlock env heap qref
          ⟨none, some "month", none, some off, ro, rk⟩; (r.1, r.2.1)) from by
      simp only [updateStartAndEndDate]
      rw [rollStartBlock_none env heap qref _ rfl]]
    simp only [rollEndBlock, hcell, hend, hparse]
  · intro heap qref cell s t zoff off ro rk hcell hend hparse
    rw [show updateStartAndEndDate env heap qref
        (some ⟨none, some "year", none, some off, ro, rk⟩)
      = (let r := rollEndBlock env heap qref
          ⟨none, some "year", none, some off, ro, rk⟩; (r.1, r.2.1)) from by
      simp only [updateStartAndEndDate]
      rw [rollStartBlock_none env heap qref _ rfl]]
    simp only [rollEndBlock, hcell, hend, hparse]

/-- Witness for `C5_rolling_rewrite`: the `"month"` start rule at the claim's
own inputs, the `"month"` start rule at a `+02:00` zone-offset timestamp, and
the `"year"` end rule at `2024-03-05T00:00:00Z`. -/
theorem C5_rolling_rewrite_witness :
    (([⟨some "2024-01-10T00:00:00Z", none⟩] : Heap)[0]?
        = some ⟨some "2024-01-10T00:00:00Z", none⟩) ∧
    parseRFC3339 "2024-01-10T00:00:00Z" = some (1704844800, 0) ∧
    updateStartAndEndDate envBase [⟨some "2024-01-10T00:00:00Z", none⟩] 0
        (some ⟨some "month", none, some 60, none, none, none⟩)
      = (([⟨some "2024-01-10T00:00:00Z", none⟩] : Heap).set 0
          ⟨some (formatRFC3339 (goTimeDate envBase.nowYear envBase.nowMonth
            (goDay (1704844800 - 60 * 60 + 60 * 0)) 0 0 0 + 60 * 60)),
            none⟩, none) ∧
    parseRFC3339 "2024-01-10T05:30:00+02:00" = some (1704857400, 120) ∧
    updateStartAndEndDate envBase [⟨some "2024-01-10T05:30:00+02:00", none⟩] 0
        (some ⟨some "month", none, some 0, none, none, none⟩)
      = (([⟨some "2024-01-10T05:30:00+02:00", none⟩] : Heap).set 0
          ⟨some (formatRFC3339 (goTimeDate envBase.nowYear envBase.nowMonth
            (goDay (1704857400 - 60 * 0 + 60 * 120)) 0 0 0 + 60 * 0)),
            none⟩, none) ∧
    parseRFC3339 "2024-03-05T00:00:00Z" = some (1709596800, 0) ∧
    updateStartAndEndDate envBase [⟨none, some "2024-03-05T00:00:00Z"⟩] 0
        (some ⟨none, some "year", none, some 30, none, none⟩)
      = (([⟨none, some "2024-03-05T00:00:00Z"⟩] : Heap).set 0
          ⟨none, some (formatRFC3339 (goTimeDate envBase.nowYear
            (goMonth (1709596800 - 60 * 30 + 60 * 0))
            (goDay (1709596800 - 60 * 30 + 60 * 0)) 0 0 0 + 60 * 30))⟩,
          none) :=
  ⟨rfl, rfl,
    (C5_rolling_rewrite envBase).1 [⟨some "2024-01-10T00:00:00Z", none⟩] 0
      ⟨some "2024-01-10T00:00:00Z", none⟩ "2024-01-10T00:00:00Z" 1704844800 0
      60 none none rfl rfl rfl,
    rfl,
    (C5_rolling_rewrite envBase).1 [⟨some "2024-01-10T05:30:00+02:00", none⟩]
      0 ⟨some "2024-01-10T05:30:00+02:00", none⟩ "2024-01-10T05:30:00+02:00"
      1704857400 120 0 none none rfl rfl rfl,
    rfl,
    (C5_rolling_rewrite envBase).2.2.2 [⟨none, some "2024-03-05T00:00:00Z"⟩]
      0 ⟨none, some "2024-03-05T00:00:00Z"⟩ "2024-03-05T00:00:00Z" 1709596800
      0 30 none none rfl rfl rfl⟩


theorem filterQueryValues_map (l : List GoVal) :
    filterQueryValues l =
      l.map (fun v => match v with | .null => GoVal.int 0 | w => w) := by
  induction l with
  | nil => rfl
  | cons v tl ih => cases v <;> simp [filterQueryValues, ih]

/-- C7: `filterQueryValues` replaces every null entry by `0` and preserves
every non-null entry in its original position (it is the elementwise map
doing exactly that, so lengths and positions are preserved); a scalar node's
query branch then emits the head of the filtered list (omitting the key when
it is empty) and an array node's query branch emits the entire filtered
list; `[null, 5, null, 3]` becomes `[0, 5, 0, 3]`. -/
theorem C7_null_filtering :
    (∀ l : List GoVal,
      filterQueryValues l =
        l.map (fun v => match v with | .null => GoVal.int 0 | w => w)) ∧
    (∀ l : List GoVal, (filterQueryValues l).length = l.length) ∧
    (∀ (l : List GoVal) (i : Nat),
      (filterQueryValues l)[i]? =
        l[i]?.map (fun v => match v with | .null => GoVal.int 0 | w => w)) ∧
    (∀ (env : Env) (heap : Heap) (carried : Option GoErr) (n k : String)
        (qref : Nat) (cell : QueryCell) (o : QueryOptions)
        (dq : Option DeviceQuery) (f c : RMap) (resp : List GoVal),
      heap[qref]? = some cell → o.rollingStartDate = none →
      o.rollingEndDate = none → env.dbQuery cell o = .ok resp →
      processNode env heap carried k
          (.mk n "string" none (some qref) (some o) dq f c)
        = (match filterQueryValues resp with
           | [] => .cont heap none none
           | x :: _ => .cont heap (some (k, x)) none) ∧
      processNode env heap carried k
          (.mk n "array" none (some qref) (some o) dq .nil .nil)
        = .cont heap (some (k, .list (filterQueryValues resp))) none) ∧
    filterQueryValues [GoVal.null, GoVal.int 5, GoVal.null, GoVal.int 3]
      = [GoVal.int 0, GoVal.int 5, GoVal.int 0, GoVal.int 3] := by
  refine ⟨filterQueryValues_map, ?_, ?_, ?_, rfl⟩
  · intro l; rw [filterQueryValues_map]; simp
  · intro l i; rw [filterQueryValues_map]; simp
  · intro env heap carried n k qref cell o dq f c resp hcell hrs hre hdb
    have hupd : updateStartAndEndDate env heap qref (some o) = (heap, none) := by
      simp only [updateStartAndEndDate, rollStartBlock_none env heap qref o hrs,
        rollEndBlock_none env heap qref o hre]
    constructor
    · simp only [processNode, hupd, hcell, hdb]
      rfl
    · simp only [processNode, hupd, hcell, hdb]
      rfl

def resp7 : List GoVal := [GoVal.null, GoVal.int 5, GoVal.null, GoVal.int 3]

def env7 : Env := { envBase with dbQuery := fun _ _ => .ok resp7 }

def opts7 : QueryOptions := ⟨none, none, none, none, none, none⟩

/-- Witness for `C7_null_filtering` at a query responding
`[null, 5, null, 3]`. -/
theorem C7_null_filtering_witness :
    (([⟨none, none⟩] : Heap)[0]? = some (⟨none, none⟩ : QueryCell)) ∧
    env7.dbQuery ⟨none, none⟩ opts7 = .ok resp7 ∧
    (processNode env7 [⟨none, none⟩] none "k"
        (.mk "n" "string" none (some 0) (some opts7) none .nil .nil)
      = (match filterQueryValues resp7 with
         | [] => .cont [⟨none, none⟩] none none
         | x :: _ => .cont [⟨none, none⟩] (some ("k", x)) none) ∧
     processNode env7 [⟨none, none⟩] none "k"
        (.mk "n" "array" none (some 0) (some opts7) none .nil .nil)
      = .cont [⟨none, none⟩] (some ("k", .list (filterQueryValues resp7)))
          none) :=
  ⟨rfl, rfl,
    C7_null_filtering.2.2.2.1 env7 [⟨none, none⟩] none "n" "k" 0 ⟨none, none⟩
      opts7 none .nil .nil resp7 rfl rfl rfl rfl⟩

theorem inferFields_toList : (fs : JObj) →
    (inferFields fs).toList =
      fs.toList.map (fun p => (p.1, inferValue p.1 p.2))
  | .nil => rfl
  | .cons k v tl => by
    simp [inferFields, DTMap.toList, JObj.toList, inferFields_toList tl]

theorem inferIndexed_toList : (i : Nat) → (es : JList) →
    (inferIndexed i es).toList =
      (List.enumFrom i es.toList).map
        (fun p => (Nat.repr p.1, inferValue (Nat.repr p.1) p.2))
  | _, .nil => rfl
  | i, .cons e tl => by
    simp [inferIndexed, DTMap.toList, JList.toList,
      inferIndexed_toList (i + 1) tl, List.enumFrom]

mutual
theorem namesOk_inferValue (key : String) : (v : JVal) →
    nodeNamesOk key (inferValue key v) = true
  | .obj fs => by
    simp [inferValue, nodeNamesOk, dtmapNamesOk, namesOk_inferFields fs]
  | .arr es => by
    simp [inferValue, nodeNamesOk, dtmapNamesOk, namesOk_inferIndexed 0 es]
  | .str s => by simp [inferValue, nodeNamesOk, dtmapNamesOk]
  | .num n => by simp [inferValue, nodeNamesOk, dtmapNamesOk]
  | .boolv b => by simp [inferValue, nodeNamesOk, dtmapNamesOk]
  | .null => by simp [inferValue, nodeNamesOk, dtmapNamesOk]

theorem namesOk_inferFields : (fs : JObj) →
    dtmapNamesOk (inferFields fs) = true
  | .nil => rfl
  | .cons k v tl => by
    simp [inferFields, dtmapNamesOk, namesOk_inferValue k v,
      namesOk_inferFields tl]

theorem namesOk_inferIndexed (i : Nat) : (es : JList) →
    dtmapNamesOk (inferIndexed i es) = true
  | .nil => rfl
  | .cons e tl => by
    simp [inferIndexed, dtmapNamesOk, namesOk_inferValue (Nat.repr i) e,
      namesOk_inferIndexed (i + 1) tl]
end

/-- C9: template structure inference maps a JSON array to a node with
`valueType = "array"`, `length` equal to the array's length, and children
keyed by the decimal strings `"0".."length-1"` with each child inferred
recursively under its index key; an object maps to `valueType = "object"`
with recursively inferred fields; scalars map to the runtime type tag
(`"string"`, `"float64"`, `"bool"`, `"<nil>"`) with no recursion; and at
every depth the produced node's `name` equals the key under which it sits. -/
theorem C9_structure_inference :
    (∀ (key : String) (es : JList),
      inferValue key (.arr es)
        = .mk key "array" es.length .nil (inferIndexed 0 es)) ∧
    (∀ (key : String) (es : JList),
      ((inferValue key (.arr es)).children).toList.map Prod.fst
        = (List.range es.toList.length).map Nat.repr) ∧
    (∀ (i : Nat) (es : JList),
      (inferIndexed i es).toList =
        (List.enumFrom i es.toList).map
          (fun p => (Nat.repr p.1, inferValue (Nat.repr p.1) p.2))) ∧
    (∀ (key : String) (fs : JObj),
      inferValue key (.obj fs) = .mk key "object" 0 (inferFields fs) .nil) ∧
    (∀ fs : JObj,
      (getJsonKeysAndTypes fs).toList =
        fs.toList.map (fun p => (p.1, inferValue p.1 p.2))) ∧
    (∀ (key s : String), inferValue key (.str s)
        = .mk key "string" 0 .nil .nil) ∧
    (∀ (key : String) (n : Int), inferValue key (.num n)
        = .mk key "float64" 0 .nil .nil) ∧
    (∀ (key : String) (b : Bool), inferValue key (.boolv b)
        = .mk key "bool" 0 .nil .nil) ∧
    (∀ key : String, inferValue key .null = .mk key "<nil>" 0 .nil .nil) ∧
    (∀ (key : String) (v : JVal), nodeNamesOk key (inferValue key v) = true) ∧
    (∀ fs : JObj, dtmapNamesOk (getJsonKeysAndTypes fs) = true) := by
  refine ⟨fun _ _ => rfl, ?_, inferIndexed_toList, fun _ _ => rfl, ?_,
    fun _ _ => rfl, fun _ _ => rfl, fun _ _ => rfl, fun _ => rfl,
    namesOk_inferValue, fun fs => namesOk_inferFields fs⟩
  · intro key es
    have keysAux : ∀ (i : Nat) (l : List JVal),
        ((List.enumFrom i l).map
          (fun p => (Nat.repr p.1, inferValue (Nat.repr p.1) p.2))).map
            Prod.fst
          = (List.range' i l.length).map Nat.repr := by
      intro i l
      induction l generalizing i with
      | nil => rfl
      | cons e tl ih => simp [List.enumFrom, List.range', ih]
    simp only [inferValue, DataType.children, inferIndexed_toList 0 es,
      keysAux 0 es.toList, List.range_eq_range']
  · intro fs
    exact inferFields_toList fs

def c10Node : RObj :=
  .mk "arr" "array" none none none none .nil
    (.cons "x" (.mk "x" "string" none none none none .nil .nil) .nil)

/-- C10, counterexample: an array node with the non-numeric child key `"x"`
whose child materializes to nothing (no `value`, no `query`) does **not**
abort the materialization — the `Atoi` pass runs over the keys of the
recursion *result*, which is empty here, so `setReportFileData` succeeds. -/
theorem C10_unmaterialized_bad_key_not_fatal :
    atoiModel "x" = none ∧
    setReportFileData envBase [] (.cons "arr" c10Node .nil) = ([], [], none) :=
  ⟨rfl, rfl⟩

theorem collectKeys_error_of_bad (l : List (String × GoVal))
    (h : ∃ p ∈ l, atoiModel p.1 = none) : ∃ e, collectKeys l = .error e := by
  induction l with
  | nil =>
    rcases h with ⟨p, hp, _⟩
    simp at hp
  | cons hd tl ih =>
    obtain ⟨k0, v0⟩ := hd
    rcases h with ⟨p, hp, hbad⟩
    cases hatoi : atoiModel k0 with
    | none =>
      exact ⟨GoErr.msg ("strconv.Atoi: " ++ k0), by simp [collectKeys, hatoi]⟩
    | some i =>
      have hptl : p ∈ tl := by
        rcases List.mem_cons.mp hp with heq | htl
        · exfalso
          rw [heq] at hbad
          simp at hbad
          rw [hbad] at hatoi
          cases hatoi
        · exact htl
      obtain ⟨e, he⟩ := ih ⟨p, hptl, hbad⟩
      exact ⟨e, by simp [collectKeys, hatoi, he]⟩

/-- C10 (amended): the parse-abort applies to the keys of the recursion
*result*: if the recursive materialization of a non-empty `children` map
succeeds and its result contains a key that `strconv.Atoi` rejects, then
`setReportFileData` aborts with that parse error and no entries, and a
`CreateReportFile` whose stored report exists fails with the same error,
leaving store and renderer untouched. -/
theorem C10_bad_result_key_aborts (env : Env) (heap h1 : Heap) (u : String)
    (k nm : String) (q : Option Nat) (qo : Option QueryOptions)
    (dq : Option DeviceQuery) (f : RMap) (ck : String) (cv : RObj)
    (ctl : RMap) (arrayData : List (String × GoVal))
    (hu : env.tokenUser = .ok u)
    (hrec : setEntriesGo env heap none (.cons ck cv ctl)
      = (h1, arrayData, none))
    (hbad : ∃ p ∈ arrayData, atoiModel p.1 = none) :
    (∃ e, setReportFileData env heap
        (.cons k (.mk nm "array" none q qo dq f (.cons ck cv ctl)) .nil)
      = (h1, [], some e)) ∧
    (∀ (store : List SReport) (ren : Renderer) (req : Report) (sr : SReport),
      env.findFault = none →
      store.find? (fun r => r.id == req.id && r.userId == u) = some sr →
      req.id ≠ "" →
      req.data
        = .cons k (.mk nm "array" none q qo dq f (.cons ck cv ctl)) .nil →
      ∃ e, CreateReportFile env heap store ren req
        = (h1, store, ren, .error e)) := by
  obtain ⟨e0, he0⟩ := collectKeys_error_of_bad arrayData hbad
  have hstep : processNode env heap none k
      (.mk nm "array" none q qo dq f (.cons ck cv ctl))
      = .stop h1 none e0 := by
    simp only [processNode]
    rw [hrec]
    simp [he0]
  have hmat : setReportFileData env heap
      (.cons k (.mk nm "array" none q qo dq f (.cons ck cv ctl)) .nil)
      = (h1, [], some e0) := by
    simp only [setReportFileData, hu, setEntriesGo]
    rw [hstep]
    rfl
  refine ⟨⟨e0, hmat⟩, ?_⟩
  intro store ren req sr hff hfind hid hdata
  have hsrid : sr.id = req.id := by
    have hpred := List.find?_some hfind
    simp only [Bool.and_eq_true, beq_iff_eq] at hpred
    exact hpred.1
  have hcond : ¬((none : Option GoErr) == some GoErr.noDocuments
      || sr.id == "") = true := by
    simp [hsrid, hid]
  refine ⟨e0, ?_⟩
  simp only [CreateReportFile, GetReportModel, hu, hff, hfind]
  rw [if_neg hcond]
  simp only [createReportFileRest, hdata, hmat]

def c10Child : RObj :=
  .mk "x" "string" (some (.str "v")) none none none .nil .nil


/-- Witness for `C10_bad_result_key_aborts`: the child keyed `"x"` carries a
literal value, so its key reaches the `Atoi` pass and aborts the call. -/
theorem C10_bad_result_key_aborts_witness :
    envBase.tokenUser = .ok "alice" ∧
    setEntriesGo envBase [] none (.cons "x" c10Child .nil)
      = ([], [("x", GoVal.str "v")], none) ∧
    (∃ p ∈ [("x", GoVal.str "v")], atoiModel p.1 = none) ∧
    ((∃ e, setReportFileData envBase []
        (.cons "arr" (.mk "arr" "array" none none none none .nil
          (.cons "x" c10Child .nil)) .nil)
      = ([], [], some e)) ∧
    (∀ (store : List SReport) (ren : Renderer) (req : Report) (sr : SReport),
      envBase.findFault = none →
      store.find? (fun r => r.id == req.id && r.userId == "alice") = some sr →
      req.id ≠ "" →
      req.data = .cons "arr" (.mk "arr" "array" none none none none .nil
        (.cons "x" c10Child .nil)) .nil →
      ∃ e, CreateReportFile envBase [] store ren req
        = ([], store, ren, .error e))) :=
  ⟨rfl, rfl, by decide,
    C10_bad_result_key_aborts envBase [] [] "alice" "arr" "arr" none none none
      .nil "x" c10Child .nil [("x", GoVal.str "v")] rfl rfl (by decide)⟩

def StepRes.entry : StepRes → Option (String × GoVal)
  | .stop _ ent _ => ent
  | .cont _ ent _ => ent

theorem processNode_entry_key (env : Env) (h : Heap) (c : Option GoErr)
    (k : String) (v : RObj) (p : String × GoVal)
    (hp : (processNode env h c k v).entry = some p) : p.1 = k := by
  rcases v with ⟨n, vt, value, query, qopts, dq', flds, ch⟩
  simp only [processNode] at hp
  repeat' split at hp
  all_goals simp_all [StepRes.entry]
  all_goals (cases hp; rfl)

theorem setEntriesGo_keys_sublist : (m : RMap) → ∀ (env : Env) (h : Heap)
    (c : Option GoErr),
    ((setEntriesGo env h c m).2.1.map Prod.fst).Sublist m.keys
  | .nil, env, h, c => by simp [setEntriesGo, RMap.keys]
  | .cons k v tl, env, h, c => by
    simp only [setEntriesGo, RMap.keys]
    cases hpn : processNode env h c k v with
    | stop h' ent e =>
      cases ent with
      | none => simp
      | some p =>
        have hk : p.1 = k :=
          processNode_entry_key env h c k v p (by rw [hpn]; rfl)
        simp only [Option.toList, List.map_cons, List.map_nil, hk]
        exact List.Sublist.cons₂ _ (List.nil_sublist _)
    | cont h' ent c' =>
      have ih := setEntriesGo_keys_sublist tl env h' c'
      cases ent with
      | none => simpa using ih.cons _
      | some p =>
        have hk : p.1 = k :=
          processNode_entry_key env h c k v p (by rw [hpn]; rfl)
        simp only [Option.toList, List.cons_append, List.nil_append,
          List.map_cons, hk]
        exact List.Sublist.cons₂ _ ih

/-- The key-value pairs of a materialized children map whose keys parse as
integers, keyed by the parsed integer. -/
def keyedInts (l : List (String × GoVal)) : List (Int × GoVal) :=
  l.filterMap (fun p => (atoiModel p.1).map (fun i => (i, p.2)))

def insertPair (p : Int × GoVal) : List (Int × GoVal) → List (Int × GoVal)
  | [] => [p]
  | q :: tl => if p.1 ≤ q.1 then p :: q :: tl else q :: insertPair p tl

/-- Sorting key-value pairs by ascending integer key. -/
def sortPairs : List (Int × GoVal) → List (Int × GoVal)
  | [] => []
  | p :: tl => insertPair p (sortPairs tl)

theorem map_fst_insertPair (p : Int × GoVal) (L : List (Int × GoVal)) :
    (insertPair p L).map Prod.fst = insertInt p.1 (L.map Prod.fst) := by
  induction L with
  | nil => rfl
  | cons q tl ih =>
    simp only [insertPair, insertInt, List.map_cons]
    by_cases hle : p.1 ≤ q.1
    · simp [hle]
    · simp [hle, ih]

theorem map_fst_sortPairs (L : List (Int × GoVal)) :
    (sortPairs L).map Prod.fst = sortInts (L.map Prod.fst) := by
  induction L with
  | nil => rfl
  | cons p tl ih => simp [sortPairs, sortInts, map_fst_insertPair, ih]

theorem mem_insertPair {x p : Int × GoVal} {L : List (Int × GoVal)} :
    x ∈ insertPair p L ↔ x = p ∨ x ∈ L := by
  induction L with
  | nil => simp [insertPair]
  | cons q tl ih =>
    simp only [insertPair]
    by_cases hle : p.1 ≤ q.1
    · simp [hle]
    · simp [hle, ih]
      tauto

theorem mem_sortPairs {x : Int × GoVal} {L : List (Int × GoVal)} :
    x ∈ sortPairs L ↔ x ∈ L := by
  induction L with
  | nil => simp [sortPairs]
  | cons p tl ih => simp [sortPairs, mem_insertPair, ih]

theorem mapLookup_of_mem_nodup {l : List (String × GoVal)}
    {key : String} {v : GoVal} (hmem : (key, v) ∈ l)
    (hnd : (l.map Prod.fst).Nodup) : mapLookup l key = some v := by
  induction l with
  | nil => simp at hmem
  | cons hd tl ih =>
    obtain ⟨k0, v0⟩ := hd
    simp only [List.map_cons, List.nodup_cons] at hnd
    rcases List.mem_cons.mp hmem with heq | htl
    · injection heq with h1 h2
      subst h1; subst h2
      simp [mapLookup]
    · have hne : k0 ≠ key := by
        intro hkk
        exact hnd.1 (hkk ▸ (List.mem_map.mpr ⟨(key, v), htl, rfl⟩))
      simp only [mapLookup, beq_iff_eq]
      rw [if_neg hne]
      exact ih htl hnd.2

theorem collectKeys_ok (l : List (String × GoVal))
    (h : ∀ p ∈ l, canonKey p.1 = true) :
    collectKeys l = .ok ((keyedInts l).map Prod.fst) := by
  induction l with
  | nil => rfl
  | cons hd tl ih =>
    obtain ⟨k0, v0⟩ := hd
    have hc := h (k0, v0) (List.mem_cons_self _ _)
    cases hatoi : atoiModel k0 with
    | none => rw [canonKey, hatoi] at hc; cases hc
    | some i =>
      have ihtl := ih (fun p hp => h p (List.mem_cons_of_mem _ hp))
      simp [collectKeys, hatoi, ihtl, keyedInts]

theorem dataSlice_eq (l : List (String × GoVal))
    (hcanon : ∀ p ∈ l, canonKey p.1 = true)
    (hnd : (l.map Prod.fst).Nodup) :
    (sortInts ((keyedInts l).map Prod.fst)).map
      (fun i => (mapLookup l (itoa i)).getD GoVal.null)
      = (sortPairs (keyedInts l)).map Prod.snd := by
  rw [← map_fst_sortPairs, List.map_map]
  apply List.map_congr_left
  intro pr hpr
  have hmem : pr ∈ keyedInts l := mem_sortPairs.mp hpr
  obtain ⟨⟨key, v⟩, hkv, hmap⟩ := List.mem_filterMap.mp hmem
  cases hatoi : atoiModel key with
  | none => rw [hatoi] at hmap; cases hmap
  | some i =>
    rw [hatoi] at hmap
    simp only [Option.map_some'] at hmap
    have hcan := hcanon (key, v) hkv
    rw [canonKey, hatoi] at hcan
    have hkeyeq : itoa i = key := by
      have := (Bool.and_eq_true _ _).mp hcan
      exact beq_iff_eq.mp this.2
    have hprv : (i, v) = pr := Option.some.inj hmap
    subst hprv
    simp only [Function.comp_apply, hkeyeq]
    rw [mapLookup_of_mem_nodup hkv hnd]
    rfl

/-- C6: an array node resolved via non-empty children materializes the
children recursively and converts the resulting mapping to a sequence of its
values ordered by parsing each key as an integer and sorting ascending (so
keys `"10","2","1"` yield `[child1, child2, child10]`, see the witness); an
empty sequence omits the key.  The hypotheses record that the children's keys
are distinct (a Go map guarantee) and canonical decimal strings, and that the
recursive materialization succeeds. -/
theorem C6_array_children_ordering (env : Env) (heap h1 : Heap) (u : String)
    (k nm : String) (q : Option Nat) (qo : Option QueryOptions)
    (dq : Option DeviceQuery) (f : RMap) (ck : String) (cv : RObj)
    (ctl : RMap) (arrayData : List (String × GoVal))
    (hu : env.tokenUser = .ok u)
    (hnodup : (RMap.cons ck cv ctl).keys.Nodup)
    (hcanon : ∀ key ∈ (RMap.cons ck cv ctl).keys, canonKey key = true)
    (hrec : setEntriesGo env heap none (.cons ck cv ctl)
      = (h1, arrayData, none)) :
    setReportFileData env heap
        (.cons k (.mk nm "array" none q qo dq f (.cons ck cv ctl)) .nil)
      = (h1,
        if ((sortPairs (keyedInts arrayData)).map Prod.snd).isEmpty then []
        else [(k, GoVal.list ((sortPairs (keyedInts arrayData)).map
          Prod.snd))],
        none) := by
  have hsub : (arrayData.map Prod.fst).Sublist (RMap.cons ck cv ctl).keys := by
    have h0 := setEntriesGo_keys_sublist (.cons ck cv ctl) env heap none
    rw [hrec] at h0
    exact h0
  have hnd : (arrayData.map Prod.fst).Nodup := hsub.nodup hnodup
  have hcanonArray : ∀ p ∈ arrayData, canonKey p.1 = true := by
    intro p hp
    exact hcanon p.1 (hsub.subset (List.mem_map.mpr ⟨p, hp, rfl⟩))
  have hck := collectKeys_ok arrayData hcanonArray
  have hslice := dataSlice_eq arrayData hcanonArray hnd
  have hstep : processNode env heap none k
      (.mk nm "array" none q qo dq f (.cons ck cv ctl))
      = (if ((sortPairs (keyedInts arrayData)).map Prod.snd).isEmpty then
          .cont h1 none none
        else .cont h1 (some (k, GoVal.list ((sortPairs
          (keyedInts arrayData)).map Prod.snd))) none) := by
    simp only [processNode]
    rw [hrec]
    simp [hck, hslice]
    rw [hslice]
  simp only [setReportFileData, hu, setEntriesGo]
  rw [hstep]
  by_cases hemp : ((sortPairs (keyedInts arrayData)).map Prod.snd).isEmpty
  · simp [hemp, setEntriesGo]
  · simp [hemp, setEntriesGo]

def c6Children : RMap :=
  .cons "10" (.mk "10" "int" (some (.int 110)) none none none .nil .nil)
    (.cons "2" (.mk "2" "int" (some (.int 102)) none none none .nil .nil)
      (.cons "1" (.mk "1" "int" (some (.int 101)) none none none .nil .nil)
        .nil))

def c6ArrayData : List (String × GoVal) :=
  [("10", GoVal.int 110), ("2", GoVal.int 102), ("1", GoVal.int 101)]

/-- Witness for `C6_array_children_ordering` at children keyed
`"10","2","1"`: the materialized sequence is `[child1, child2, child10]`. -/
theorem C6_array_children_ordering_witness :
    envBase.tokenUser = .ok "alice" ∧
    c6Children.keys.Nodup ∧
    (∀ key ∈ c6Children.keys, canonKey key = true) ∧
    setEntriesGo envBase [] none c6Children = ([], c6ArrayData, none) ∧
    setReportFileData envBase []
        (.cons "arr" (.mk "arr" "array" none none none none .nil c6Children)
          .nil)
      = ([],
        if ((sortPairs (keyedInts c6ArrayData)).map Prod.snd).isEmpty then []
        else [("arr", GoVal.list ((sortPairs (keyedInts c6ArrayData)).map
          Prod.snd))],
        none) ∧
    (sortPairs (keyedInts c6ArrayData)).map Prod.snd
      = [GoVal.int 101, GoVal.int 102, GoVal.int 110] :=
  ⟨rfl, by decide, by decide, rfl,
    C6_array_children_ordering envBase [] [] "alice" "arr" "arr" none none
      none .nil "10" (.mk "10" "int" (some (.int 110)) none none none .nil
        .nil) (.cons "2" (.mk "2" "int" (some (.int 102)) none none none .nil
        .nil) (.cons "1" (.mk "1" "int" (some (.int 101)) none none none .nil
        .nil) .nil)) c6ArrayData rfl (by decide) (by decide) rfl,
    rfl⟩

theorem countMatches_eq_countP (fileId : String) (l : List ReportFile) :
    countMatches fileId l = l.countP (fun f => f.id == fileId) :=
  (List.countP_eq_length_filter _ _).symm

theorem countMatches_zero_iff (fileId : String) (l : List ReportFile) :
    countMatches fileId l = 0 ↔ ∀ f ∈ l, f.id ≠ fileId := by
  rw [countMatches_eq_countP, List.countP_eq_zero]
  simp

theorem removeLoop_no_match (fileId : String) : ∀ (l proc : List ReportFile),
    countMatches fileId l = 0 → removeLoop fileId proc l = proc ++ l
  | [], proc, _ => by simp [removeLoop]
  | el :: rest, proc, h => by
    have hall := (countMatches_zero_iff fileId (el :: rest)).mp h
    have hne : (el.id == fileId) = false := by
      simp [hall el (List.mem_cons_self _ _)]
    have hrest : countMatches fileId rest = 0 :=
      (countMatches_zero_iff fileId rest).mpr
        (fun f hf => hall f (List.mem_cons_of_mem _ hf))
    rw [removeLoop.eq_def]
    simp only [hne, Bool.false_eq_true, if_false]
    rw [removeLoop_no_match fileId rest (proc ++ [el]) hrest]
    simp

theorem filter_ne_of_no_match (fileId : String) (l : List ReportFile)
    (h : countMatches fileId l = 0) :
    l.filter (fun f => f.id != fileId) = l := by
  rw [List.filter_eq_self]
  intro f hf
  simp [(countMatches_zero_iff fileId l).mp h f hf]

theorem removePass_filter (fileId : String) (l : List ReportFile)
    (h : countMatches fileId l ≤ 1) :
    removePass fileId l = l.filter (fun f => f.id != fileId) := by
  have aux : ∀ (l' : List ReportFile) (proc : List ReportFile),
      countMatches fileId l' ≤ 1 →
      removeLoop fileId proc l'
        = proc ++ l'.filter (fun f => f.id != fileId) := by
    intro l'
    induction l' with
    | nil => intro proc _; simp [removeLoop]
    | cons el rest ih =>
      intro proc hle
      by_cases hel : el.id = fileId
      · have heq : (el.id == fileId) = true := by simp [hel]
        have hrest0 : countMatches fileId rest = 0 := by
          have hcons : countMatches fileId (el :: rest)
              = countMatches fileId rest + 1 := by
            simp [countMatches, List.filter_cons, heq]
          omega
        have helne : (el.id != fileId) = false := by simp [hel]
        cases rest with
        | nil =>
          rw [removeLoop.eq_def]
          simp [heq, List.filter, helne]
        | cons nxt rest' =>
          have hall := (countMatches_zero_iff fileId (nxt :: rest')).mp hrest0
          have hnxt : (nxt.id != fileId) = true := by
            simp [hall nxt (List.mem_cons_self _ _)]
          have hrest'0 : countMatches fileId rest' = 0 :=
            (countMatches_zero_iff fileId rest').mpr
              (fun f hf => hall f (List.mem_cons_of_mem _ hf))
          rw [removeLoop.eq_def]
          simp only [heq, if_true]
          rw [removeLoop_no_match fileId rest' (proc ++ [nxt]) hrest'0]
          rw [List.filter_cons_of_neg (by simp [helne]),
            List.filter_cons_of_pos (by simp [hnxt]),
            filter_ne_of_no_match fileId rest' hrest'0]
          simp
      · have hne : (el.id == fileId) = false := by simp [hel]
        have helne : (el.id != fileId) = true := by simp [hel]
        have hrest : countMatches fileId rest ≤ 1 := by
          have hcons : countMatches fileId (el :: rest)
              = countMatches fileId rest := by
            simp [countMatches, List.filter_cons, hne]
          omega
        rw [removeLoop.eq_def]
        simp only [hne, Bool.false_eq_true, if_false]
        rw [ih (proc ++ [el]) hrest,
          List.filter_cons_of_pos (by simp [helne])]
        simp
  exact aux l [] h

theorem countMatches_filter_ne (fileId : String) (l : List ReportFile) :
    countMatches fileId (l.filter (fun f => f.id != fileId)) = 0 := by
  rw [countMatches_zero_iff]
  intro f hf
  have := (List.mem_filter.mp hf).2
  simpa using this

theorem removePass_of_no_match (fileId : String) (l : List ReportFile)
    (h : countMatches fileId l = 0) : removePass fileId l = l :=
  removeLoop_no_match fileId l [] h

theorem driverDeleteFile_idem (ren : Renderer) (fileId : String) :
    driverDeleteFile (driverDeleteFile ren fileId) fileId
      = driverDeleteFile ren fileId := by
  simp only [driverDeleteFile, List.filter_filter]
  congr 1
  funext a
  simp [Bool.and_self]

theorem replaceFirst_idem (p : SReport → Bool) (x : SReport)
    (hx : p x = true) : ∀ l : List SReport,
    replaceFirst p x (replaceFirst p x l) = replaceFirst p x l
  | [] => by simp [replaceFirst, hx]
  | r :: tl => by
    by_cases hr : p r = true
    · simp [replaceFirst, hr, hx]
    · simp only [replaceFirst, hr, Bool.false_eq_true, if_false,
        replaceFirst_idem p x hx tl]

theorem find?_replaceFirst (p : SReport → Bool) (x : SReport)
    (hx : p x = true) : ∀ l : List SReport,
    (replaceFirst p x l).find? p = some x
  | [] => by simp [replaceFirst, List.find?, hx]
  | r :: tl => by
    by_cases hr : p r = true
    · simp [replaceFirst, hr, List.find?, hx]
    · simp only [replaceFirst, hr, Bool.false_eq_true, if_false,
        List.find?_cons]
      exact find?_replaceFirst p x hx tl

/-- C8: calling `DeleteCreatedReportFile` twice with the same `reportId` and
`fileId` yields the same post-state (stored report models and renderer
artifacts) as calling it once: the second renderer delete of the already
absent artifact is swallowed (pure removal is idempotent) and the second
removal pass finds no matching entry.  The hypothesis records that the found
report's file list carries the id at most once (file ids are
renderer-generated uuids); the timestamp and schedule recomputed by the
trailing update are identical across the two calls because the environment
(clock, cron oracle) is fixed. -/
theorem C8_delete_file_idempotent (env : Env) (store : List SReport)
    (ren : Renderer) (reportId fileId : String)
    (hcount : ∀ (u : String) (r : SReport), env.tokenUser = .ok u →
      store.find? (fun x => x.id == reportId && x.userId == u) = some r →
      countMatches fileId (r.reportFiles.getD []) ≤ 1) :
    ((DeleteCreatedReportFile env
        (DeleteCreatedReportFile env store ren reportId fileId).1
        (DeleteCreatedReportFile env store ren reportId fileId).2.1
        reportId fileId).1,
      (DeleteCreatedReportFile env
        (DeleteCreatedReportFile env store ren reportId fileId).1
        (DeleteCreatedReportFile env store ren reportId fileId).2.1
        reportId fileId).2.1)
      = ((DeleteCreatedReportFile env store ren reportId fileId).1,
         (DeleteCreatedReportFile env store ren reportId fileId).2.1) := by
  cases htok : env.tokenUser with
  | error e =>
    have h1 : ∀ (s : List SReport) (r : Renderer),
        DeleteCreatedReportFile env s r reportId fileId = (s, r, some e) := by
      intro s r
      simp [DeleteCreatedReportFile, GetReportModel, htok]
    simp [h1]
  | ok u =>
    cases hff : env.findFault with
    | some e =>
      have h1 : ∀ (s : List SReport) (r : Renderer),
          DeleteCreatedReportFile env s r reportId fileId = (s, r, some e) := by
        intro s r
        simp [DeleteCreatedReportFile, GetReportModel, htok, hff]
      simp [h1]
    | none =>
      cases hfind : store.find?
          (fun x => x.id == reportId && x.userId == u) with
      | none =>
        have h1 : DeleteCreatedReportFile env store ren reportId fileId
            = (store, ren, some .noDocuments) := by
          simp [DeleteCreatedReportFile, GetReportModel, htok, hff, hfind]
        simp only [h1]
      | some r0 =>
        have hcnt := hcount u r0 htok hfind
        obtain ⟨rid0, nm0, tn0, dat0, tid0, uid0, rf0, cr0, sf0, ca0, ua0⟩ := r0
        have hpred := List.find?_some hfind
        simp only [Bool.and_eq_true, beq_iff_eq] at hpred
        obtain ⟨hr0id, hr0u⟩ := hpred
        subst hr0id
        subst hr0u
        cases hcs : calculateNextSchedule env cr0 with
        | error e2 =>
          have h1 : DeleteCreatedReportFile env store ren rid0 fileId
              = (store, driverDeleteFile ren fileId, some e2) := by
            simp [DeleteCreatedReportFile, GetReportModel, updateStored,
              htok, hff, hfind, hcs]
          have h2 : DeleteCreatedReportFile env store
              (driverDeleteFile ren fileId) rid0 fileId
              = (store, driverDeleteFile (driverDeleteFile ren fileId) fileId,
                 some e2) := by
            simp [DeleteCreatedReportFile, GetReportModel, updateStored,
              htok, hff, hfind, hcs]
          simp [h1, h2, driverDeleteFile_idem]
        | ok ts =>
          cases rf0 with
          | none =>
            have hfr := find?_replaceFirst
              (fun r : SReport => r.id == rid0 && r.userId == uid0)
              (SReport.mk rid0 nm0 tn0 dat0 tid0 uid0 none cr0 ts ca0
                env.now) (by simp) store
            have hri := replaceFirst_idem
              (fun r : SReport => r.id == rid0 && r.userId == uid0)
              (SReport.mk rid0 nm0 tn0 dat0 tid0 uid0 none cr0 ts ca0
                env.now) (by simp) store
            simp [DeleteCreatedReportFile, GetReportModel, updateStored,
              htok, hff, hfind, hcs, hfr, hri, driverDeleteFile_idem]
          | some l0 =>
            have hcnt' : countMatches fileId l0 ≤ 1 := by simpa using hcnt
            have hrp : removePass fileId (removePass fileId l0)
                = removePass fileId l0 := by
              rw [removePass_filter fileId l0 hcnt']
              exact removePass_of_no_match fileId _
                (countMatches_filter_ne fileId l0)
            have hfr := find?_replaceFirst
              (fun r : SReport => r.id == rid0 && r.userId == uid0)
              (SReport.mk rid0 nm0 tn0 dat0 tid0 uid0
                (some (removePass fileId l0)) cr0 ts ca0 env.now)
              (by simp) store
            have hri := replaceFirst_idem
              (fun r : SReport => r.id == rid0 && r.userId == uid0)
              (SReport.mk rid0 nm0 tn0 dat0 tid0 uid0
                (some (removePass fileId l0)) cr0 ts ca0 env.now)
              (by simp) store
            simp [DeleteCreatedReportFile, GetReportModel, updateStored,
              htok, hff, hfind, hcs, hfr, hri, hrp, driverDeleteFile_idem]

def c8Stored : SReport :=
  { SReport.zero with
    id := "r1", userId := "alice",
    reportFiles := some [⟨"f1", "application/pdf", "l1", 1⟩], createdAt := 3 }

/-- Witness for `C8_delete_file_idempotent` on a store holding one report
with one file. -/
theorem C8_delete_file_idempotent_witness :
    (∀ (u : String) (r : SReport), envBase.tokenUser = .ok u →
      [c8Stored].find? (fun x => x.id == "r1" && x.userId == u) = some r →
      countMatches "f1" (r.reportFiles.getD []) ≤ 1) ∧
    ((DeleteCreatedReportFile envBase
        (DeleteCreatedReportFile envBase [c8Stored] ["f1"] "r1" "f1").1
        (DeleteCreatedReportFile envBase [c8Stored] ["f1"] "r1" "f1").2.1
        "r1" "f1").1,
      (DeleteCreatedReportFile envBase
        (DeleteCreatedReportFile envBase [c8Stored] ["f1"] "r1" "f1").1
        (DeleteCreatedReportFile envBase [c8Stored] ["f1"] "r1" "f1").2.1
        "r1" "f1").2.1)
      = ((DeleteCreatedReportFile envBase [c8Stored] ["f1"] "r1" "f1").1,
         (DeleteCreatedReportFile envBase [c8Stored] ["f1"] "r1" "f1").2.1) := by
  have hcount : ∀ (u : String) (r : SReport), envBase.tokenUser = .ok u →
      [c8Stored].find? (fun x => x.id == "r1" && x.userId == u) = some r →
      countMatches "f1" (r.reportFiles.getD []) ≤ 1 := by
    intro u r hu hf
    have hu2 : Except.ok (ε := GoErr) "alice" = Except.ok u := hu
    have hu3 : u = "alice" := (Except.ok.inj hu2).symm
    subst hu3
    have hev : [c8Stored].find? (fun x => x.id == "r1" && x.userId == "alice")
        = some c8Stored := rfl
    rw [hev] at hf
    have hr : c8Stored = r := Option.some.inj hf
    rw [← hr]
    decide
  exact ⟨hcount,
    C8_delete_file_idempotent envBase [c8Stored] ["f1"] "r1" "f1" hcount⟩
